import Mathlib

/-!
Verification of the erbil-api flight scraping service.

The repository fetches a flight-schedule webpage, extracts rows into
flight records, caches them in memory, and serves them over HTTP.  We
embed the cache state machine, the request handler, the row extractor,
the scheduled-fetcher variant and a small heap model for the deep copy,
and prove the specified properties about them.
-/

namespace ErbilApi

/-! ### Data model (src/index.js, primary variant)

`scrapeFlights` classifies every row as `'Arrival'` or `'Departure'`
via `$(row).hasClass('ArrivalsFlightRow') ? 'Arrival' : 'Departure'`,
so the type field is one of exactly two values. -/

inductive FlightType where
  | Arrival
  | Departure
deriving DecidableEq, Repr

/-- A flight record as built by `scrapeFlights` in src/index.js.
`scheduled` is the epoch-millisecond value of the ISO timestamp. -/
structure Flight where
  ftype : FlightType
  scheduled : Nat
  flightNo : String
  city : String
  airline : String
  status : String
deriving DecidableEq, Repr

/-- The global `flightCache` object of src/index.js:
`{ data: [], lastFetched: 0, isStale: true }`. -/
structure FlightCache where
  data : List Flight
  lastFetched : Nat
  isStale : Bool
deriving DecidableEq, Repr

/-- `CACHE_LIFETIME = 15 * 60 * 1000` (15 minutes in milliseconds). -/
def CACHE_LIFETIME : Nat := 15 * 60 * 1000

/-- `getCachedFlights(forceRefresh)` from src/index.js.  The outcome of
`scrapeFlights()` is passed in as `fetchResult` (`.ok flights` when the
scrape resolves, `.error e` when it rejects).  Returns the new cache
state; the JS `throw` is modelled by `.error`.  Note `now -
flightCache.lastFetched > CACHE_LIFETIME` on Nat matches the JS number
comparison whenever `now ≥ lastFetched`, and both sides say "not
expired" when `now < lastFetched`. -/
def getCachedFlights (cache : FlightCache) (now : Nat) (forceRefresh : Bool)
    (fetchResult : Except String (List Flight)) : Except String FlightCache :=
  let cacheExpired := decide (now - cache.lastFetched > CACHE_LIFETIME)
  if forceRefresh || cacheExpired || cache.isStale then
    match fetchResult with
    | .ok flights =>
        .ok { data := flights, lastFetched := now, isStale := false }
    | .error e =>
        if cache.data.length > 0 && !forceRefresh then
          .ok { cache with isStale := true }
        else
          .error e
  else
    .ok cache

/-- C1: a refresh attempt that fails (the scrape rejects) while the
cached records are non-empty and the refresh was not forced leaves
`data` byte-for-byte unchanged and only flips `isStale` to true; no
field of the cache is partially overwritten. -/
theorem failed_refresh_preserves_records (cache : FlightCache) (now : Nat) (e : String)
    (hne : cache.data ≠ [])
    (hattempt : now - cache.lastFetched > CACHE_LIFETIME ∨ cache.isStale = true) :
    getCachedFlights cache now false (.error e) =
      .ok { data := cache.data, lastFetched := cache.lastFetched, isStale := true } := by
  have hlen : cache.data.length > 0 := List.length_pos.mpr hne
  have hcond : (false || decide (now - cache.lastFetched > CACHE_LIFETIME) || cache.isStale) = true := by
    rcases hattempt with h | h
    · simp [h]
    · simp [h]
  simp only [getCachedFlights, hcond, if_true]
  have : (cache.data.length > 0 && !false) = true := by simp [hlen]
  simp [this, hne]

theorem failed_refresh_preserves_records_witness :
    let c : FlightCache :=
      { data := [{ ftype := .Arrival, scheduled := 5, flightNo := "QR441",
                   city := "Doha", airline := "Qatar Airways", status := "Landed" }],
        lastFetched := 0, isStale := true }
    getCachedFlights c 7 false (.error "timeout") =
      .ok { data := c.data, lastFetched := c.lastFetched, isStale := true } :=
  failed_refresh_preserves_records _ 7 "timeout" (by decide) (Or.inr rfl)

/-- C2: a failing refresh with an empty cache surfaces the error to the
caller (the JS `throw error`): this covers both a forced refresh and a
non-forced refresh that was attempted because the cache was expired or
stale. -/
theorem failed_refresh_empty_cache_errors (cache : FlightCache) (now : Nat) (e : String)
    (force : Bool) (hempty : cache.data = [])
    (hattempt : force = true ∨ now - cache.lastFetched > CACHE_LIFETIME ∨ cache.isStale = true) :
    getCachedFlights cache now force (.error e) = .error e := by
  have hcond : (force || decide (now - cache.lastFetched > CACHE_LIFETIME) || cache.isStale) = true := by
    rcases hattempt with h | h | h
    · simp [h]
    · simp [h]
    · simp [h]
  have hlen : cache.data.length = 0 := by simp [hempty]
  simp [getCachedFlights, hcond, hlen]

theorem failed_refresh_empty_cache_errors_witness :
    getCachedFlights { data := [], lastFetched := 0, isStale := false } 3 true (.error "down")
      = .error "down" :=
  failed_refresh_empty_cache_errors _ 3 "down" true rfl (Or.inl rfl)

/-! ### Request handler (src/index.js `module.exports`) -/

inductive Method where
  | GET
  | POST
  | OPTIONS
deriving DecidableEq, Repr

/-- The observable parts of the HTTP response built by the handler. -/
structure HttpResponse where
  status : Nat
  flights : List Flight := []
  success : Bool := false
  cacheStatus : String := ""
deriving DecidableEq, Repr

/-- `filteredFlights.sort((a, b) => new Date(a.scheduled) - new Date(b.scheduled))`:
a comparison sort by the scheduled timestamp, ascending. -/
def sortByScheduled (l : List Flight) : List Flight :=
  List.insertionSort (fun a b => a.scheduled ≤ b.scheduled) l

/-- `s.startsWith(pre)` on strings, computed on the character lists. -/
def strStartsWith (s pre : String) : Bool :=
  pre.toList.isPrefixOf s.toList

/-- `s.endsWith(suf)` on strings, computed on the character lists. -/
def strEndsWith (s suf : String) : Bool :=
  suf.toList.reverse.isPrefixOf s.toList.reverse

/-- Path routing of the GET branch: `/arrivals` keeps `f.type ===
'Arrival'`, `/departures` keeps `f.type === 'Departure'`, anything else
under `/api/flights` is served unfiltered. -/
def pathFilter (path : String) (fs : List Flight) : List Flight :=
  if strEndsWith path "/arrivals" then fs.filter (fun f => f.ftype == .Arrival)
  else if strEndsWith path "/departures" then fs.filter (fun f => f.ftype == .Departure)
  else fs

/-- The serverless handler of src/index.js.  `fetchResult` is the
outcome `scrapeFlights()` would produce if it is called.  Returns the
response and the cache state after the request.  An error escaping
`getCachedFlights` reaches the global catch handler, which answers
HTTP 500. -/
def handle (cache : FlightCache) (now : Nat) (method : Method) (path : String)
    (fetchResult : Except String (List Flight)) : HttpResponse × FlightCache :=
  match method with
  | .OPTIONS => ({ status := 204 }, cache)
  | .POST =>
    if path == "/api/flights/refresh" then
      match getCachedFlights cache now true fetchResult with
      | .ok c => ({ status := 200, success := true }, c)
      | .error _ => ({ status := 500 }, cache)
    else ({ status := 404 }, cache)
  | .GET =>
    if strStartsWith path "/api/flights" then
      match getCachedFlights cache now false fetchResult with
      | .ok c =>
        ({ status := 200,
           flights := sortByScheduled (pathFilter path c.data),
           cacheStatus := if c.isStale then "Stale" else "Fresh" }, c)
      | .error _ => ({ status := 500 }, cache)
    else ({ status := 404 }, cache)

/-- C3: the code answers a POST to the refresh endpoint with HTTP 500,
not 200, whenever the underlying fetch fails: `getCachedFlights(true)`
rethrows every scrape failure (the stale-data branch requires
`!forceRefresh`), so control reaches the global catch handler.  Shown
at an empty cache and at a fresh non-empty cache. -/
theorem refresh_post_fails_with_500 :
    (handle { data := [], lastFetched := 0, isStale := true } 0
        .POST "/api/flights/refresh" (.error "timeout")).1.status = 500
    ∧ (handle { data := [{ ftype := .Arrival, scheduled := 5, flightNo := "QR441",
                           city := "Doha", airline := "Qatar Airways", status := "Landed" }],
                lastFetched := 0, isStale := false } 0
        .POST "/api/flights/refresh" (.error "timeout")).1.status = 500 := by
  constructor <;> rfl

instance : IsTotal Flight (fun a b => a.scheduled ≤ b.scheduled) :=
  ⟨fun a b => Nat.le_total a.scheduled b.scheduled⟩

instance : IsTrans Flight (fun a b => a.scheduled ≤ b.scheduled) :=
  ⟨fun _ _ _ => Nat.le_trans⟩

/-- C4: every successful GET read of the flight list serves
`sortByScheduled (pathFilter path ...)` — the sort is applied to the
already filtered list — and the served sequence is sorted by
`scheduled` in non-decreasing order. -/
theorem get_response_sorted (cache : FlightCache) (now : Nat) (path : String)
    (fr : Except String (List Flight)) (c : FlightCache)
    (hpath : strStartsWith path "/api/flights" = true)
    (hok : getCachedFlights cache now false fr = .ok c) :
    (handle cache now .GET path fr).1.flights = sortByScheduled (pathFilter path c.data)
    ∧ List.Pairwise (fun a b => a.scheduled ≤ b.scheduled)
        (handle cache now .GET path fr).1.flights := by
  have hresp : (handle cache now .GET path fr).1.flights
      = sortByScheduled (pathFilter path c.data) := by
    simp [handle, hpath, hok]
  refine ⟨hresp, ?_⟩
  rw [hresp]
  have hs : List.Sorted (fun a b : Flight => a.scheduled ≤ b.scheduled)
      (sortByScheduled (pathFilter path c.data)) :=
    List.sorted_insertionSort _ _
  exact hs

theorem get_response_sorted_witness :
    let f1 : Flight := { ftype := .Arrival, scheduled := 9, flightNo := "IA220",
                         city := "Baghdad", airline := "Iraqi Airways", status := "Landed" }
    let f2 : Flight := { ftype := .Departure, scheduled := 4, flightNo := "TK316",
                         city := "Istanbul", airline := "Turkish Airlines", status := "Boarding" }
    let c : FlightCache := { data := [f1, f2], lastFetched := 0, isStale := false }
    (handle c 0 .GET "/api/flights" (.ok [])).1.flights
      = sortByScheduled (pathFilter "/api/flights" c.data)
    ∧ List.Pairwise (fun a b => a.scheduled ≤ b.scheduled)
        (handle c 0 .GET "/api/flights" (.ok [])).1.flights :=
  get_response_sorted _ 0 "/api/flights" (.ok []) _ (by decide) rfl

/-! ### Arrival/departure filters

src/index.js filters on the `type` field; src/flights.js has no type
field and filters on keywords in the lower-cased `status` text. -/

/-- `fs.filter(f => f.type === 'Arrival')`. -/
def arrivalsOf (fs : List Flight) : List Flight :=
  fs.filter (fun f => f.ftype == .Arrival)

/-- `fs.filter(f => f.type === 'Departure')`. -/
def departuresOf (fs : List Flight) : List Flight :=
  fs.filter (fun f => f.ftype == .Departure)

/-- A flight record as built by `scrapeFlightData` in src/flights.js:
five opaque text fields, no type field. -/
structure KRecord where
  scheduled : String
  city : String
  flightNo : String
  airline : String
  status : String
deriving DecidableEq, Repr

/-- JS `String.prototype.includes` on the character lists. -/
def listIncludes (pat : List Char) : List Char → Bool
  | [] => pat.isEmpty
  | c :: cs => pat.isPrefixOf (c :: cs) || listIncludes pat cs

/-- ASCII `toLowerCase` on one character. -/
def lowerChar (c : Char) : Char :=
  if 65 ≤ c.toNat ∧ c.toNat ≤ 90 then Char.ofNat (c.toNat + 32) else c

/-- `s.toLowerCase()` as a character list. -/
def strLower (s : String) : List Char :=
  s.toList.map lowerChar

/-- `s.toLowerCase().includes(pat)`. -/
def strIncludes (s pat : String) : Bool :=
  listIncludes pat.toList (strLower s)

/-- src/flights.js arrivals filter:
`f.status.toLowerCase().includes('arrival') || f.status.toLowerCase().includes('landed')`. -/
def kwArrivals (fs : List KRecord) : List KRecord :=
  fs.filter (fun f => strIncludes f.status "arrival" || strIncludes f.status "landed")

/-- src/flights.js departures filter:
`f.status.toLowerCase().includes('departure') || f.status.toLowerCase().includes('scheduled')`. -/
def kwDepartures (fs : List KRecord) : List KRecord :=
  fs.filter (fun f => strIncludes f.status "departure" || strIncludes f.status "scheduled")

/-- C5 counterexample: the keyword-based filters of src/flights.js do
not partition the cached list.  A record whose status is `"Delayed"`
contains none of the classification keywords, so it appears in the
unfiltered result but in neither the arrivals nor the departures
result. -/
theorem kw_filters_not_partition :
    let r : KRecord := { scheduled := "10:00", city := "Doha", flightNo := "QR441",
                         airline := "Qatar Airways", status := "Delayed" }
    kwArrivals [r] = [] ∧ kwDepartures [r] = [] ∧ ([r] : List KRecord) ≠ [] := by
  refine ⟨by decide, by decide, by decide⟩

/-- C5 (amended): the type-based filters of src/index.js do partition
every record list: each record of the unfiltered result lands in
exactly one of the two filtered results, and the two filtered lists
together account for the whole list.  The keyword-based filters of
src/flights.js lack this property. -/
theorem type_filters_partition (fs : List Flight) :
    (∀ f ∈ fs, (f ∈ arrivalsOf fs ∧ f ∉ departuresOf fs)
      ∨ (f ∈ departuresOf fs ∧ f ∉ arrivalsOf fs))
    ∧ (arrivalsOf fs).length + (departuresOf fs).length = fs.length := by
  constructor
  · intro f hf
    cases hty : f.ftype with
    | Arrival =>
      left
      constructor
      · exact List.mem_filter.mpr ⟨hf, by simp [hty]⟩
      · intro hmem
        have := (List.mem_filter.mp hmem).2
        simp [hty] at this
    | Departure =>
      right
      constructor
      · exact List.mem_filter.mpr ⟨hf, by simp [hty]⟩
      · intro hmem
        have := (List.mem_filter.mp hmem).2
        simp [hty] at this
  · have hAA : (FlightType.Arrival == FlightType.Arrival) = true := rfl
    have hAD : (FlightType.Arrival == FlightType.Departure) = false := rfl
    have hDA : (FlightType.Departure == FlightType.Arrival) = false := rfl
    have hDD : (FlightType.Departure == FlightType.Departure) = true := rfl
    induction fs with
    | nil => rfl
    | cons f fs ih =>
      cases hty : f.ftype with
      | Arrival =>
        simp only [arrivalsOf, departuresOf] at ih ⊢
        simp [List.filter_cons, hty, hAA, hAD] at ih ⊢
        omega
      | Departure =>
        simp only [arrivalsOf, departuresOf] at ih ⊢
        simp [List.filter_cons, hty, hDA, hDD] at ih ⊢
        omega

theorem type_filters_partition_witness :
    let f : Flight := { ftype := .Departure, scheduled := 4, flightNo := "TK316",
                        city := "Istanbul", airline := "Turkish Airlines", status := "Boarding" }
    ((f ∈ arrivalsOf [f] ∧ f ∉ departuresOf [f]) ∨ (f ∈ departuresOf [f] ∧ f ∉ arrivalsOf [f]))
    ∧ (arrivalsOf [f]).length + (departuresOf [f]).length = ([f] : List Flight).length := by
  intro f
  exact ⟨(type_filters_partition [f]).1 f (by simp), (type_filters_partition [f]).2⟩

/-! ### Scheduled-time resolution (src/index.js lines 53-62)

`new Date(y, mo, d, hour, minute, 0)` places HH:MM:00 on the current
calendar day; `if (scheduledDate < now) scheduledDate.setDate(... + 1)`
moves it to the next day when that instant is already past.  We model
an instant as a day index plus milliseconds within the day. -/

structure SimpleDT where
  day : Nat
  msOfDay : Nat
deriving DecidableEq, Repr

def SimpleDT.toMillis (d : SimpleDT) : Nat := d.day * 86400000 + d.msOfDay

/-- The time-resolution step of `scrapeFlights`: build HH:MM:00 on
`now`'s calendar day and advance one day when it lies strictly in the
past relative to `now` (same-day comparison reduces to ms-of-day). -/
def resolveScheduled (now : SimpleDT) (hour minute : Nat) : SimpleDT :=
  let schedMs := (hour * 60 + minute) * 60000
  if schedMs < now.msOfDay then { day := now.day + 1, msOfDay := schedMs }
  else { day := now.day, msOfDay := schedMs }

/-- C6: a row carrying only HH:MM resolves to the current calendar day
exactly when the instant HH:MM:00 on that day is not earlier than the
current clock time (millisecond precision), and to the following
calendar day when it is strictly earlier — the overnight rollover. -/
theorem resolve_rollover (now : SimpleDT) (hour minute : Nat) :
    ((hour * 60 + minute) * 60000 ≥ now.msOfDay →
      resolveScheduled now hour minute = { day := now.day, msOfDay := (hour * 60 + minute) * 60000 })
    ∧ ((hour * 60 + minute) * 60000 < now.msOfDay →
      resolveScheduled now hour minute = { day := now.day + 1, msOfDay := (hour * 60 + minute) * 60000 }) := by
  constructor
  · intro h
    simp [resolveScheduled, Nat.not_lt.mpr h]
  · intro h
    simp [resolveScheduled, h]

theorem resolve_rollover_witness :
    resolveScheduled { day := 20000, msOfDay := 100 } 1 0
      = { day := 20000, msOfDay := 3600000 }
    ∧ resolveScheduled { day := 20000, msOfDay := 37845000 } 10 30
      = { day := 20001, msOfDay := 37800000 } :=
  ⟨(resolve_rollover { day := 20000, msOfDay := 100 } 1 0).1 (by decide),
   (resolve_rollover { day := 20000, msOfDay := 37845000 } 10 30).2 (by decide)⟩

/-! ### Scheduled-fetcher variant (src/unnamed/part_000)

State: `flightData`, `lastFetched`, `isFetching`.  `fetchFlights` is an
async function; the segment from the `isFetching` check to `isFetching
= true` runs atomically, the awaited network request can interleave
with other calls, and the commit plus the `finally` reset run
atomically afterwards. -/

/-- A flight record as built by `parseFlightRow` / `getSampleData`. -/
structure SFlight where
  id : String
  ftype : FlightType
  airline : String
  flightNo : String
  city : String
  scheduled : String
  status : String
  lastUpdated : Nat
deriving DecidableEq, Repr

structure ServerState where
  flightData : List SFlight
  lastFetched : Option Nat
  isFetching : Bool
deriving DecidableEq, Repr

/-- What the awaited part of `fetchFlights` produces: either the list
of rows scraped out of the page (possibly empty), or a rejection of
the request. -/
inductive FetchOutcome where
  | rows : List SFlight → FetchOutcome
  | err : String → FetchOutcome
deriving DecidableEq, Repr

/-- `getSampleData()`: the four hardcoded fallback records;
`lastUpdated` is the current time. -/
def getSampleData (now : Nat) : List SFlight :=
  [ { id := "IA220-1000", ftype := .Arrival, airline := "Iraqi Airways", flightNo := "IA220",
      city := "Baghdad", scheduled := "10:00", status := "Landed", lastUpdated := now },
    { id := "QR441-1130", ftype := .Arrival, airline := "Qatar Airways", flightNo := "QR441",
      city := "Doha", scheduled := "11:30", status := "Delayed", lastUpdated := now },
    { id := "TK316-1415", ftype := .Departure, airline := "Turkish Airlines", flightNo := "TK316",
      city := "Istanbul", scheduled := "14:15", status := "Boarding", lastUpdated := now },
    { id := "FZ206-1600", ftype := .Departure, airline := "FlyDubai", flightNo := "FZ206",
      city := "Dubai", scheduled := "16:00", status := "Scheduled", lastUpdated := now } ]

/-- The synchronous prefix of `fetchFlights`: check the guard; when it
is clear, set it and proceed (`true`), otherwise return at once
(`false`). -/
def fetchEnter (s : ServerState) : Bool × ServerState :=
  if s.isFetching then (false, s)
  else (true, { s with isFetching := true })

/-- The commit logic of `fetchFlights` after the awaited request: on
rows, commit them when non-empty, otherwise retain old data and fall
back to sample data only when the cache is empty; on a rejection, fall
back to sample data only when the cache is empty. -/
def fetchBody (s : ServerState) (now : Nat) (o : FetchOutcome) : ServerState :=
  match o with
  | .rows newFlights =>
    if newFlights.length > 0 then
      { s with flightData := newFlights, lastFetched := some now }
    else if s.flightData.length == 0 then
      { s with flightData := getSampleData now }
    else s
  | .err _ =>
    if s.flightData.length == 0 then
      { s with flightData := getSampleData now }
    else s

/-- The `finally` block: `isFetching = false`. -/
def fetchFinish (s : ServerState) : ServerState :=
  { s with isFetching := false }

/-- A whole uninterrupted run of `fetchFlights`, together with the
number of times the network fetcher was invoked by this call. -/
def fetchFlights (s : ServerState) (now : Nat) (o : FetchOutcome) : ServerState × Nat :=
  let (proceed, s1) := fetchEnter s
  if proceed then (fetchFinish (fetchBody s1 now o), 1) else (s1, 0)

/-- C7: the `isFetching` guard admits at most one fetch in progress.
A call that finds the guard set changes nothing and invokes the
fetcher zero times; from a quiescent state, the first call takes the
guard, a second call that runs while the first awaits its request is
skipped entirely (the current snapshot is served unchanged, zero
fetcher invocations — so the two calls invoke the fetcher exactly
once), and the first call's `finally` clears the guard on every
outcome, success or failure. -/
theorem fetch_guard_at_most_one (s t : ServerState) (now1 now2 now3 : Nat)
    (o1 o2 o3 : FetchOutcome)
    (hs : s.isFetching = false) (ht : t.isFetching = true) :
    fetchFlights t now3 o3 = (t, 0)
    ∧ (fetchEnter s).1 = true
    ∧ fetchFlights (fetchEnter s).2 now2 o2 = ((fetchEnter s).2, 0)
    ∧ (fetchFlights (fetchEnter s).2 now2 o2).2 + (if (fetchEnter s).1 then 1 else 0) = 1
    ∧ (fetchFinish (fetchBody (fetchEnter s).2 now1 o1)).isFetching = false
    ∧ (fetchFlights s now1 o1).1.isFetching = false := by
  have he : fetchEnter s = (true, { s with isFetching := true }) := by
    simp [fetchEnter, hs]
  refine ⟨?_, ?_, ?_, ?_, ?_, ?_⟩
  · simp [fetchFlights, fetchEnter, ht]
  · simp [he]
  · rw [he]
    simp [fetchFlights, fetchEnter]
  · rw [he]
    simp [fetchFlights, fetchEnter]
  · simp [fetchFinish]
  · simp [fetchFlights, he, fetchFinish]

theorem fetch_guard_at_most_one_witness :
    let s : ServerState := { flightData := [], lastFetched := none, isFetching := false }
    let t : ServerState := { flightData := [], lastFetched := none, isFetching := true }
    fetchFlights t 3 (.err "down") = (t, 0)
    ∧ (fetchEnter s).1 = true
    ∧ fetchFlights (fetchEnter s).2 2 (.rows []) = ((fetchEnter s).2, 0)
    ∧ (fetchFlights (fetchEnter s).2 2 (.rows [])).2 + (if (fetchEnter s).1 then 1 else 0) = 1
    ∧ (fetchFinish (fetchBody (fetchEnter s).2 1 (.err "down"))).isFetching = false
    ∧ (fetchFlights s 1 (.err "down")).1.isFetching = false :=
  fetch_guard_at_most_one _ _ 1 2 3 (.err "down") (.rows []) (.err "down") rfl rfl

/-- The GET `/api/flights` handler of src/unnamed/part_000: serves the
cached list with status `'OK'` when non-empty, `'No Data'` otherwise. -/
structure SResponse where
  flights : List SFlight
  status : String
deriving DecidableEq, Repr

def getAllFlights (s : ServerState) : SResponse :=
  { flights := s.flightData,
    status := if s.flightData.length > 0 then "OK" else "No Data" }

/-- C10: in the scheduled-fetcher variant, a failing fetch or a
zero-row scrape against an empty cache populates the cache with the
four hardcoded sample records, so a subsequent GET serves fabricated
data with status `'OK'`; a zero-row scrape against a non-empty cache
retains the old data. -/
theorem sample_data_fallback (s t : ServerState) (now : Nat) (e : String)
    (hs : s.isFetching = false) (hempty : s.flightData = [])
    (ht : t.isFetching = false) (htne : t.flightData ≠ []) :
    (fetchFlights s now (.err e)).1.flightData = getSampleData now
    ∧ (fetchFlights s now (.rows [])).1.flightData = getSampleData now
    ∧ (getSampleData now).length = 4
    ∧ (getAllFlights (fetchFlights s now (.err e)).1).status = "OK"
    ∧ (getAllFlights (fetchFlights s now (.err e)).1).flights = getSampleData now
    ∧ (fetchFlights t now (.rows [])).1.flightData = t.flightData := by
  have he : fetchEnter s = (true, { s with isFetching := true }) := by
    simp [fetchEnter, hs]
  have het : fetchEnter t = (true, { t with isFetching := true }) := by
    simp [fetchEnter, ht]
  have htlen : (t.flightData.length == 0) = false := by
    simp [List.length_eq_zero, htne]
  refine ⟨?_, ?_, rfl, ?_, ?_, ?_⟩
  · simp [fetchFlights, he, fetchBody, fetchFinish, hempty]
  · simp [fetchFlights, he, fetchBody, fetchFinish, hempty]
  · simp [fetchFlights, he, fetchBody, fetchFinish, hempty, getAllFlights, getSampleData]
  · simp [fetchFlights, he, fetchBody, fetchFinish, hempty, getAllFlights]
  · simp [fetchFlights, het, fetchBody, fetchFinish, htlen]

theorem sample_data_fallback_witness :
    let s : ServerState := { flightData := [], lastFetched := none, isFetching := false }
    let t : ServerState := { flightData := getSampleData 0, lastFetched := some 0,
                             isFetching := false }
    (fetchFlights s 5 (.err "down")).1.flightData = getSampleData 5
    ∧ (fetchFlights s 5 (.rows [])).1.flightData = getSampleData 5
    ∧ (getSampleData 5).length = 4
    ∧ (getAllFlights (fetchFlights s 5 (.err "down")).1).status = "OK"
    ∧ (getAllFlights (fetchFlights s 5 (.err "down")).1).flights = getSampleData 5
    ∧ (fetchFlights t 5 (.rows [])).1.flightData = t.flightData :=
  sample_data_fallback _ _ 5 "down" rfl rfl rfl (by decide)

/-! ### Row extractor (src/index.js `scrapeFlights`, lines 33-76)

A selected table row is its class-based arrival marker plus the text
of its `td` cells.  Rows without exactly 6 cells are skipped by the
guard; inside the per-row `try`, an unparseable scheduled time makes
`toISOString()` throw, which the row-level `catch` swallows, skipping
just that row. -/

structure RawRow where
  isArrivalClass : Bool
  cells : List String
deriving DecidableEq, Repr

/-- JS `split(sep)` on a character list. -/
def splitChar (sep : Char) : List Char → List (List Char)
  | [] => [[]]
  | c :: cs =>
    if c = sep then [] :: splitChar sep cs
    else
      match splitChar sep cs with
      | [] => [[c]]
      | h :: t => (c :: h) :: t

/-- Decimal digit-string to number; anything non-numeric fails. -/
def digitsToNat (cs : List Char) : Option Nat :=
  if cs.isEmpty then none
  else
    cs.foldl
      (fun acc c =>
        match acc with
        | none => none
        | some n => if c.isDigit then some (n * 10 + (c.toNat - 48)) else none)
      (some 0)

/-- `scheduledTime.split(':').map(Number)` destructured into hour and
minute; any shape or content that does not yield two numbers makes the
row's date invalid and its conversion fault. -/
def parseClock (s : String) : Option (Nat × Nat) :=
  match splitChar ':' s.toList with
  | [hs, ms] =>
    match digitsToNat hs, digitsToNat ms with
    | some h, some m => some (h, m)
    | _, _ => none
  | _ => none

/-- Conversion of one row: `none` models both the 6-cell guard
rejecting the row and the per-row `catch` swallowing a conversion
fault. -/
def convertRow (now : SimpleDT) (r : RawRow) : Option Flight :=
  if r.cells.length == 6 then
    match parseClock (r.cells.getD 0 "") with
    | some (h, m) =>
      some { ftype := if r.isArrivalClass then .Arrival else .Departure,
             scheduled := (resolveScheduled now h m).toMillis,
             flightNo := r.cells.getD 1 "",
             city := r.cells.getD 2 "",
             airline := r.cells.getD 3 "",
             status := r.cells.getD 5 "" }
    | none => none
  else none

/-- The row loop of `scrapeFlights`: each row contributes its record
when conversion succeeds and nothing otherwise; zero matching rows
(including an absent table) yield the empty list. -/
def extractRows (now : SimpleDT) (rows : List RawRow) : List Flight :=
  rows.filterMap (convertRow now)

/-- C8: the extractor is a total function — an absent table or zero
matching rows yield `[]` rather than an error, a row with the wrong
column count converts to nothing, and a row whose conversion faults is
skipped without aborting the extraction of the rows around it. -/
theorem extract_total_skips_bad_rows (now : SimpleDT) (xs ys : List RawRow) (bad : RawRow)
    (hbad : convertRow now bad = none) :
    extractRows now [] = []
    ∧ (∀ r : RawRow, r.cells.length ≠ 6 → convertRow now r = none)
    ∧ extractRows now (xs ++ bad :: ys) = extractRows now xs ++ extractRows now ys := by
  refine ⟨rfl, ?_, ?_⟩
  · intro r hr
    simp [convertRow, hr]
  · simp [extractRows, List.filterMap_append, List.filterMap_cons, hbad]

theorem extract_total_skips_bad_rows_witness :
    let now : SimpleDT := { day := 20000, msOfDay := 0 }
    let good : RawRow := { isArrivalClass := true,
                           cells := ["10:00", "QR441", "Doha", "Qatar Airways", "B2", "Landed"] }
    let bad : RawRow := { isArrivalClass := false,
                          cells := ["TBA", "XX000", "Nowhere", "None", "B0", "Cancelled"] }
    extractRows now [] = []
    ∧ (∀ r : RawRow, r.cells.length ≠ 6 → convertRow now r = none)
    ∧ extractRows now ([good] ++ bad :: [good]) = extractRows now [good] ++ extractRows now [good] :=
  extract_total_skips_bad_rows _ [_] [_] _ (by decide)

/-! ### Deep-copy isolation (src/index.js line 116)

`return JSON.parse(JSON.stringify(flightCache))` hands the caller a
structure sharing no mutable object with the cache.  We model the JS
object graph as a heap of objects whose fields are primitives or
references; the JSON round-trip materialises a fresh isomorphic region
at the top of the heap, so every address of the copy is at or above
the old heap length while the original lives strictly below it.
Reading a structure out of the heap (the value a caller observes) is
`readVal`; mutation is `hset`. -/

inductive HVal where
  | prim : String → HVal
  | ref : Nat → HVal
deriving DecidableEq, Repr

structure HObj where
  fields : List (String × HVal)
deriving DecidableEq, Repr

abbrev Heap := List HObj

/-- The tree of primitive data a caller observes when reading a
structure out of the heap. -/
inductive PTree where
  | prim : String → PTree
  | node : List (String × PTree) → PTree

mutual

/-- Read the value graph rooted at a heap value out into a pure tree;
`fuel` bounds the depth (JSON.stringify likewise rejects unboundedly
deep/cyclic structures). -/
def readVal (h : Heap) : Nat → HVal → Option PTree
  | _, .prim s => some (.prim s)
  | 0, .ref _ => none
  | fuel + 1, .ref a =>
    match h[a]? with
    | none => none
    | some o => (readFields h fuel o.fields).map PTree.node
termination_by fuel _ => (fuel, 0)

def readFields (h : Heap) : Nat → List (String × HVal) → Option (List (String × PTree))
  | _, [] => some []
  | fuel, (k, v) :: rest =>
    match readVal h fuel v, readFields h fuel rest with
    | some t, some ts => some ((k, t) :: ts)
    | _, _ => none
termination_by fuel l => (fuel, l.length + 1)

end

/-- Mutation of the object stored at address `b`. -/
def hset (h : Heap) (b : Nat) (o : HObj) : Heap := h.set b o

def shiftVal (n : Nat) : HVal → HVal
  | .prim s => .prim s
  | .ref a => .ref (a + n)

def shiftObj (n : Nat) (o : HObj) : HObj :=
  { fields := o.fields.map (fun kv => (kv.1, shiftVal n kv.2)) }

/-- Whether a value's references all satisfy `p` (primitives do). -/
def valIn (p : Nat → Bool) : HVal → Bool
  | .prim _ => true
  | .ref a => p a

/-- Every reference in the heap points below the heap's length: true
of any heap built by ordinary allocation. -/
def heapClosed (h : Heap) : Bool :=
  h.all (fun o => o.fields.all (fun kv => valIn (fun x => decide (x < h.length)) kv.2))

/-- The region of addresses satisfying `p` never references outside
itself. -/
def regionClosed (h : Heap) (p : Nat → Bool) : Prop :=
  ∀ a, p a = true → ∀ o, h[a]? = some o → ∀ kv ∈ o.fields, valIn p kv.2 = true

/-- `JSON.parse(JSON.stringify(·))` rooted at address `a`: a fresh
region isomorphic to the whole heap appears above the old heap, and
the returned root is the image of `a` in it. -/
def deepCopy (h : Heap) (a : Nat) : Heap × HVal :=
  (h ++ h.map (shiftObj h.length), .ref (a + h.length))

/-- Reading through two heaps that agree on a reference-closed region
gives the same tree for any value rooted inside the region. -/
theorem read_agree (p : Nat → Bool) (h₁ h₂ : Heap)
    (hag : ∀ a, p a = true → h₁[a]? = h₂[a]?)
    (hcl : regionClosed h₁ p) (fuel : Nat) :
    (∀ v, valIn p v = true → readVal h₁ fuel v = readVal h₂ fuel v)
    ∧ (∀ l : List (String × HVal), (∀ kv ∈ l, valIn p kv.2 = true) →
        readFields h₁ fuel l = readFields h₂ fuel l) := by
  induction fuel with
  | zero =>
    have hval : ∀ v, valIn p v = true → readVal h₁ 0 v = readVal h₂ 0 v := by
      intro v _
      cases v <;> simp [readVal]
    refine ⟨hval, ?_⟩
    intro l hl
    induction l with
    | nil => simp [readFields]
    | cons kv rest ihl =>
      obtain ⟨k, v⟩ := kv
      have h1 := hval v (hl (k, v) (List.mem_cons_self _ _))
      have h2 := ihl (fun x hx => hl x (List.mem_cons_of_mem _ hx))
      simp [readFields, h1, h2]
  | succ fuel ih =>
    have hval : ∀ v, valIn p v = true → readVal h₁ (fuel + 1) v = readVal h₂ (fuel + 1) v := by
      intro v hv
      cases v with
      | prim s => simp [readVal]
      | ref a =>
        have hpa : p a = true := hv
        have hth := hag a hpa
        simp only [readVal]
        rw [← hth]
        cases hoa : h₁[a]? with
        | none => rfl
        | some o =>
          have hflds := hcl a hpa o hoa
          have hff := ih.2 o.fields hflds
          simp [hff]
    refine ⟨hval, ?_⟩
    intro l hl
    induction l with
    | nil => simp [readFields]
    | cons kv rest ihl =>
      obtain ⟨k, v⟩ := kv
      have h1 := hval v (hl (k, v) (List.mem_cons_self _ _))
      have h2 := ihl (fun x hx => hl x (List.mem_cons_of_mem _ hx))
      simp [readFields, h1, h2]

/-- Lookup in the copy region translates to lookup in the original. -/
theorem copy_lookup_high (h : Heap) (x : Nat) :
    (h ++ h.map (shiftObj h.length))[x + h.length]? = (h[x]?).map (shiftObj h.length) := by
  rw [List.getElem?_append_right (by omega : h.length ≤ x + h.length)]
  simp [List.getElem?_map]

/-- Lookup below the old length is untouched by the copy. -/
theorem copy_lookup_low (h : Heap) (x : Nat) (hx : x < h.length) :
    (h ++ h.map (shiftObj h.length))[x]? = h[x]? :=
  List.getElem?_append_left hx

/-- The fresh copy region only references itself. -/
theorem copy_region_closed_high (h : Heap) (_hcl : heapClosed h = true) :
    regionClosed (h ++ h.map (shiftObj h.length)) (fun x => decide (h.length ≤ x)) := by
  intro a hpa o hoa kv hkv
  have hna : h.length ≤ a := of_decide_eq_true hpa
  obtain ⟨x, rfl⟩ : ∃ x, a = x + h.length := ⟨a - h.length, by omega⟩
  rw [copy_lookup_high] at hoa
  cases hox : h[x]? with
  | none => rw [hox] at hoa; simp at hoa
  | some o0 =>
    rw [hox] at hoa
    simp only [Option.map_some'] at hoa
    injection hoa with hoa'
    subst hoa'
    simp only [shiftObj, List.mem_map] at hkv
    obtain ⟨kv0, _, rfl⟩ := hkv
    cases kv0.2 with
    | prim s => simp [valIn, shiftVal]
    | ref c => simp [valIn, shiftVal]

/-- The original region only references itself. -/
theorem copy_region_closed_low (h : Heap) (hcl : heapClosed h = true) :
    regionClosed (h ++ h.map (shiftObj h.length)) (fun x => decide (x < h.length)) := by
  intro a hpa o hoa kv hkv
  have hna : a < h.length := of_decide_eq_true hpa
  rw [copy_lookup_low h a hna] at hoa
  have hmem : o ∈ h := List.getElem?_mem hoa
  have := (List.all_eq_true.mp hcl) o hmem
  exact (List.all_eq_true.mp this) kv hkv

/-- Reading the shifted image of a value through the extended heap
gives exactly the tree the original value reads out. -/
theorem read_shift (h : Heap) (hcl : heapClosed h = true) (fuel : Nat) :
    (∀ v, valIn (fun x => decide (x < h.length)) v = true →
      readVal (h ++ h.map (shiftObj h.length)) fuel (shiftVal h.length v) = readVal h fuel v)
    ∧ (∀ l : List (String × HVal), (∀ kv ∈ l, valIn (fun x => decide (x < h.length)) kv.2 = true) →
      readFields (h ++ h.map (shiftObj h.length)) fuel
          (l.map (fun kv => (kv.1, shiftVal h.length kv.2)))
        = readFields h fuel l) := by
  induction fuel with
  | zero =>
    have hval : ∀ v, valIn (fun x => decide (x < h.length)) v = true →
        readVal (h ++ h.map (shiftObj h.length)) 0 (shiftVal h.length v) = readVal h 0 v := by
      intro v _
      cases v <;> simp [readVal, shiftVal]
    refine ⟨hval, ?_⟩
    intro l hl
    induction l with
    | nil => simp [readFields]
    | cons kv rest ihl =>
      obtain ⟨k, v⟩ := kv
      have h1 := hval v (hl (k, v) (List.mem_cons_self _ _))
      have h2 := ihl (fun x hx => hl x (List.mem_cons_of_mem _ hx))
      simp [readFields, h1, h2]
  | succ fuel ih =>
    have hval : ∀ v, valIn (fun x => decide (x < h.length)) v = true →
        readVal (h ++ h.map (shiftObj h.length)) (fuel + 1) (shiftVal h.length v)
          = readVal h (fuel + 1) v := by
      intro v hv
      cases v with
      | prim s => simp [readVal, shiftVal]
      | ref a =>
        simp only [shiftVal, readVal, copy_lookup_high]
        cases hoa : h[a]? with
        | none => rfl
        | some o =>
          simp only [Option.map_some']
          have hmem : o ∈ h := List.getElem?_mem hoa
          have hflds := (List.all_eq_true.mp ((List.all_eq_true.mp hcl) o hmem))
          have := ih.2 o.fields (fun kv hkv => hflds kv hkv)
          simp only [shiftObj]
          rw [this]
    refine ⟨hval, ?_⟩
    intro l hl
    induction l with
    | nil => simp [readFields]
    | cons kv rest ihl =>
      obtain ⟨k, v⟩ := kv
      have h1 := hval v (hl (k, v) (List.mem_cons_self _ _))
      have h2 := ihl (fun x hx => hl x (List.mem_cons_of_mem _ hx))
      simp [readFields, h1, h2]

/-- C9: the snapshot returned by `getCachedFlights` is a deep copy
isolated from the cache.  In a closed heap, the copy reads out exactly
the tree the original reads out; mutating any pre-existing address
(any later cache update) leaves the copy's readout unchanged; and
mutating any address of the fresh copy region (the caller sorting or
editing its snapshot) leaves the original's readout unchanged. -/
theorem snapshot_deep_copy_isolated (h : Heap) (a b : Nat) (o : HObj) (fuel : Nat)
    (hcl : heapClosed h = true) (ha : a < h.length) :
    readVal (deepCopy h a).1 fuel (deepCopy h a).2 = readVal h fuel (.ref a)
    ∧ (b < h.length →
        readVal (hset (deepCopy h a).1 b o) fuel (deepCopy h a).2
          = readVal (deepCopy h a).1 fuel (deepCopy h a).2)
    ∧ (h.length ≤ b →
        readVal (hset (deepCopy h a).1 b o) fuel (.ref a)
          = readVal (deepCopy h a).1 fuel (.ref a)) := by
  refine ⟨?_, ?_, ?_⟩
  · -- the copy reads out the same tree as the original
    exact (read_shift h hcl fuel).1 (.ref a) (by simp [valIn, ha])
  · intro hb
    have := read_agree (fun x => decide (h.length ≤ x))
      (deepCopy h a).1 (hset (deepCopy h a).1 b o) ?hag ?hcl fuel
    case hag =>
      intro x hx
      have : b ≠ x := by
        have := of_decide_eq_true hx
        omega
      exact (List.getElem?_set_ne this).symm
    case hcl => exact copy_region_closed_high h hcl
    exact (this.1 (deepCopy h a).2 (by simp [deepCopy, valIn])).symm
  · intro hb
    have := read_agree (fun x => decide (x < h.length))
      (deepCopy h a).1 (hset (deepCopy h a).1 b o) ?hag ?hcl fuel
    case hag =>
      intro x hx
      have : b ≠ x := by
        have := of_decide_eq_true hx
        omega
      exact (List.getElem?_set_ne this).symm
    case hcl => exact copy_region_closed_low h hcl
    exact (this.1 (.ref a) (by simp [valIn, ha])).symm

theorem snapshot_deep_copy_isolated_witness :
    let h : Heap := [{ fields := [("data", HVal.ref 1), ("isStale", HVal.prim "true")] },
                     { fields := [("flightNo", HVal.prim "QR441")] }]
    let o : HObj := { fields := [("flightNo", HVal.prim "mutated")] }
    readVal (deepCopy h 0).1 3 (deepCopy h 0).2 = readVal h 3 (.ref 0)
    ∧ readVal (hset (deepCopy h 0).1 1 o) 3 (deepCopy h 0).2
        = readVal (deepCopy h 0).1 3 (deepCopy h 0).2
    ∧ readVal (hset (deepCopy h 0).1 3 o) 3 (.ref 0)
        = readVal (deepCopy h 0).1 3 (.ref 0) := by
  intro h o
  exact ⟨(snapshot_deep_copy_isolated h 0 1 o 3 (by decide) (by decide)).1,
    (snapshot_deep_copy_isolated h 0 1 o 3 (by decide) (by decide)).2.1 (by decide),
    (snapshot_deep_copy_isolated h 0 3 o 3 (by decide) (by decide)).2.2 (by decide)⟩

end ErbilApi
